import Mathlib

set_option maxHeartbeats 1000000
set_option maxRecDepth 4000
set_option linter.unusedVariables false

/-!
Verification development for the Go runtime execution tracer core
(src/runtime/trace.go).  The tracer's pure data manipulations are embedded
shallowly: trace buffers are records holding the written byte prefix
(`data`, whose length is the write offset `pos`) together with the
`lastTicks` cursor; machine integers are `Nat` with explicit `% 2 ^ 64`
(resp. `% 2 ^ 32`) where Go's uint64/uint32 arithmetic can wrap; fallible
operations (Go `throw` / slice-bounds panics) return `Option`.  External
collaborators (the cputicks/nanotime clocks, the stack unwinder, memhash)
are passed in as explicit parameters.
-/

/-- Event type constants from trace.go. -/
def traceEvNone : Nat := 0

def traceEvBatch : Nat := 1

def traceEvFrequency : Nat := 2

def traceEvStack : Nat := 3

def traceEvString : Nat := 37

def traceEvCPUSample : Nat := 49

/-- Timestamps in the trace are cputicks/traceTickDiv.  In the source this is
`16 + 48*(goarch.Is386|goarch.IsAmd64)`, i.e. 64 on x86-64, which is the value
used here. -/
def traceTickDiv : Nat := 64

/-- Maximum number of PCs in a single stack trace. -/
def traceStackSize : Nat := 128

/-- Identifier of a fake P used when tracing without a real P. -/
def traceGlobProc : Int := -1

/-- Maximum number of bytes to encode uint64 in base-128. -/
def traceBytesPerNumber : Nat := 10

/-- Shift of the number of arguments in the first event byte. -/
def traceArgCountShift : Nat := 6

/-- Go conversion `uint64(i)` of an `int64`/`int32` value. -/
def uint64OfInt (i : Int) : Nat := (i % (2 ^ 64 : Int)).toNat

/-- Per-P trace buffer (traceBufHeader + arr).  `data` is the written prefix of
`arr`, so the Go write offset `pos` is `data.length`; `lastTicks` is the tick
cursor of the last event written to this buffer. -/
structure TraceBuf where
  lastTicks : Nat
  data : List Nat
deriving DecidableEq

/-- Go `buf.pos`: the next write offset in arr. -/
def TraceBuf.pos (b : TraceBuf) : Nat := b.data.length

/-- `len(buf.arr)`: the traceBuf array is `64<<10 - unsafe.Sizeof(traceBufHeader{})`
bytes; on a 64-bit platform the header is link (8) + lastTicks (8) + pos (8) +
stk (8*traceStackSize) bytes. -/
def traceBufCap : Nat := 64 * 1024 - (8 + 8 + 8 + 8 * traceStackSize)

/-- Go `(buf *traceBuf) byte(v byte)`: append one byte and advance pos. -/
def TraceBuf.byte (b : TraceBuf) (v : Nat) : TraceBuf :=
  { b with data := b.data ++ [v % 256] }

/-- Go `traceAppend(buf []byte, v uint64) []byte`: append v in
little-endian-base-128 encoding (loop `for ; v >= 0x80; v >>= 7`). -/
def traceAppend (buf : List Nat) (v : Nat) : List Nat :=
  if h : 0x80 ≤ v then traceAppend (buf ++ [0x80 ||| v % 256]) (v >>> 7)
  else buf ++ [v % 256]
termination_by v
decreasing_by
  simp only [Nat.shiftRight_eq_div_pow]
  exact Nat.div_lt_self (by omega) (by norm_num)

/-- Go `(buf *traceBuf) varint(v uint64)`: the same base-128 loop as
`traceAppend`, writing into `buf.arr` at `buf.pos` and advancing `pos`. -/
def TraceBuf.varint (b : TraceBuf) (v : Nat) : TraceBuf :=
  if h : 0x80 ≤ v then
    TraceBuf.varint { b with data := b.data ++ [0x80 ||| v % 256] } (v >>> 7)
  else { b with data := b.data ++ [v % 256] }
termination_by v
decreasing_by
  simp only [Nat.shiftRight_eq_div_pow]
  exact Nat.div_lt_self (by omega) (by norm_num)

/-- Spec-side definition (for the round-trip claim): the LEB128 decoder, from
the spec's words "little-endian base 128, high bit = more bytes follow". -/
def leb128Decode : List Nat → Nat
  | [] => 0
  | b :: rest => if 0x80 ≤ b then b % 0x80 + 0x80 * leb128Decode rest else b

theorem traceAppend_eq_lt (buf : List Nat) (v : Nat) (h : v < 0x80) :
    traceAppend buf v = buf ++ [v % 256] := by
  unfold traceAppend
  simp [Nat.not_le.2 h]

theorem traceAppend_eq_ge (buf : List Nat) (v : Nat) (h : 0x80 ≤ v) :
    traceAppend buf v = traceAppend (buf ++ [0x80 ||| v % 256]) (v >>> 7) := by
  conv_lhs => unfold traceAppend
  simp [h]

theorem shiftRight7_lt (v : Nat) (h : 0x80 ≤ v) : v >>> 7 < v := by
  simp only [Nat.shiftRight_eq_div_pow]
  exact Nat.div_lt_self (by omega) (by norm_num)

/-- traceAppend only ever appends: its result is the input buffer followed by
the encoding of v built from the empty buffer. -/
theorem traceAppend_append (v : Nat) :
    ∀ buf : List Nat, traceAppend buf v = buf ++ traceAppend [] v := by
  induction v using Nat.strong_induction_on with
  | _ v ih =>
    intro buf
    by_cases h : 0x80 ≤ v
    · rw [traceAppend_eq_ge _ _ h, traceAppend_eq_ge [] _ h,
        ih (v >>> 7) (shiftRight7_lt v h), ih (v >>> 7) (shiftRight7_lt v h)
          ([] ++ [0x80 ||| v % 256])]
      simp
    · rw [traceAppend_eq_lt _ _ (by omega), traceAppend_eq_lt [] _ (by omega)]
      simp

/-- The buffer varint method performs exactly the traceAppend loop: it leaves
`lastTicks` alone and appends the base-128 encoding to `data`. -/
theorem TraceBuf.varint_eq (v : Nat) :
    ∀ b : TraceBuf, b.varint v = ⟨b.lastTicks, b.data ++ traceAppend [] v⟩ := by
  induction v using Nat.strong_induction_on with
  | _ v ih =>
    intro b
    by_cases h : 0x80 ≤ v
    · rw [TraceBuf.varint]
      simp only [h, dite_true]
      rw [ih (v >>> 7) (shiftRight7_lt v h), traceAppend_eq_ge [] _ h]
      simp only [List.nil_append]
      rw [traceAppend_append (v >>> 7) [0x80 ||| v % 256]]
      simp
    · rw [TraceBuf.varint]
      simp only [h, dite_false]
      rw [traceAppend_eq_lt [] _ (by omega)]
      simp

theorem traceAppend_nil_ne_nil (v : Nat) : traceAppend [] v ≠ [] := by
  by_cases h : 0x80 ≤ v
  · rw [traceAppend_eq_ge [] _ h, traceAppend_append]
    simp
  · rw [traceAppend_eq_lt [] _ (by omega)]
    simp

/-- Length bound: a value below `2 ^ (7 * k)` encodes in at most k bytes. -/
theorem traceAppend_nil_length_le :
    ∀ k : Nat, 1 ≤ k → ∀ v : Nat, v < 2 ^ (7 * k) →
      (traceAppend [] v).length ≤ k := by
  intro k
  induction k with
  | zero => omega
  | succ k ih =>
    intro _ v hv
    by_cases h : 0x80 ≤ v
    · rw [traceAppend_eq_ge [] _ h, traceAppend_append]
      have hk : 1 ≤ k := by
        by_contra hk
        have : k = 0 := by omega
        subst this
        simp at hv
        omega
      have hlt : v >>> 7 < 2 ^ (7 * k) := by
        simp only [Nat.shiftRight_eq_div_pow]
        have hmul : v < 2 ^ 7 * 2 ^ (7 * k) := by
          rw [← pow_add]
          have h7 : 7 + 7 * k = 7 * (k + 1) := by ring
          rw [h7]
          exact hv
        exact Nat.div_lt_of_lt_mul hmul
      have := ih hk (v >>> 7) hlt
      simp only [List.length_append, List.length_cons, List.length_nil]
      omega
    · rw [traceAppend_eq_lt [] _ (by omega)]
      simp

/-- Bitwise helper: or-ing the continuation bit onto a byte below 256 gives
`128 + (low 7 bits)`. -/
theorem lor128_eq : ∀ m : Nat, m < 256 → 128 ||| m = 128 + m % 128 := by
  decide

/-- Decoding the encoding is the identity, for every natural number. -/
theorem leb128Decode_traceAppend (v : Nat) :
    leb128Decode (traceAppend [] v) = v := by
  induction v using Nat.strong_induction_on with
  | _ v ih =>
    by_cases h : 0x80 ≤ v
    · have hbyte : 0x80 ||| v % 256 = 128 + v % 256 % 128 :=
        lor128_eq (v % 256) (Nat.mod_lt v (by norm_num))
      have hmod : v % 256 % 128 = v % 128 :=
        Nat.mod_mod_of_dvd v (by norm_num)
      have henc : traceAppend [] v
          = (128 + v % 128) :: traceAppend [] (v >>> 7) := by
        rw [traceAppend_eq_ge [] _ h, traceAppend_append, hbyte, hmod]
        simp
      rw [henc, leb128Decode]
      rw [if_pos (by omega), ih (v >>> 7) (shiftRight7_lt v h)]
      simp only [Nat.shiftRight_eq_div_pow]
      norm_num
      omega
    · rw [traceAppend_eq_lt [] _ (by omega)]
      simp only [List.nil_append, leb128Decode]
      rw [if_neg (by omega)]
      omega

/-- The emitted bytes have the continuation-bit shape: all bytes but the last
carry the high bit, the last byte does not. -/
theorem traceAppend_digit_shape (v : Nat) :
    ∃ ds last, traceAppend [] v = ds ++ [last] ∧
      (∀ x ∈ ds, 0x80 ≤ x) ∧ last < 0x80 := by
  induction v using Nat.strong_induction_on with
  | _ v ih =>
    by_cases h : 0x80 ≤ v
    · rw [traceAppend_eq_ge [] _ h, traceAppend_append]
      obtain ⟨ds, last, heq, hds, hlast⟩ := ih (v >>> 7) (shiftRight7_lt v h)
      refine ⟨(0x80 ||| v % 256) :: ds, last, ?_, ?_, hlast⟩
      · simp [heq]
      · intro x hx
        rcases List.mem_cons.1 hx with hx | hx
        · subst hx
          have hbyte : 0x80 ||| v % 256 = 128 + v % 256 % 128 :=
            lor128_eq (v % 256) (Nat.mod_lt v (by norm_num))
          omega
        · exact hds x hx
    · rw [traceAppend_eq_lt [] _ (by omega)]
      exact ⟨[], v % 256, by simp, by simp, by omega⟩

/-- C6: for every uint64 value v, `traceAppend` and `traceBuf.varint` emit v in
little-endian base-128 with the high bit of each byte as continuation marker
(all bytes but the last carry the high bit), using at most 10
(traceBytesPerNumber) bytes, both emitters append the same byte sequence, and
LEB128-decoding the emitted bytes yields v again. -/
theorem traceAppend_varint_leb128 (v : Nat) (hv : v < 2 ^ 64) :
    (∀ b : TraceBuf,
        b.varint v = ⟨b.lastTicks, b.data ++ traceAppend [] v⟩) ∧
    (∀ buf : List Nat, traceAppend buf v = buf ++ traceAppend [] v) ∧
    (traceAppend [] v).length ≤ traceBytesPerNumber ∧
    (∃ ds last, traceAppend [] v = ds ++ [last] ∧
      (∀ x ∈ ds, 0x80 ≤ x) ∧ last < 0x80) ∧
    leb128Decode (traceAppend [] v) = v := by
  refine ⟨TraceBuf.varint_eq v, traceAppend_append v, ?_,
    traceAppend_digit_shape v, leb128Decode_traceAppend v⟩
  have hlt : v < 2 ^ (7 * traceBytesPerNumber) := by
    calc v < 2 ^ 64 := hv
    _ ≤ 2 ^ (7 * traceBytesPerNumber) := by norm_num [traceBytesPerNumber]
  exact traceAppend_nil_length_le traceBytesPerNumber
    (by norm_num [traceBytesPerNumber]) v hlt

/-- Witness for traceAppend_varint_leb128 at v = 300. -/
theorem traceAppend_varint_leb128_witness :
    (300 : Nat) < 2 ^ 64 ∧
    ((∀ b : TraceBuf,
        b.varint 300 = ⟨b.lastTicks, b.data ++ traceAppend [] 300⟩) ∧
    (∀ buf : List Nat, traceAppend buf 300 = buf ++ traceAppend [] 300) ∧
    (traceAppend [] 300).length ≤ traceBytesPerNumber ∧
    (∃ ds last, traceAppend [] 300 = ds ++ [last] ∧
      (∀ x ∈ ds, 0x80 ≤ x) ∧ last < 0x80) ∧
    leb128Decode (traceAppend [] 300) = 300) :=
  ⟨by norm_num, traceAppend_varint_leb128 300 (by norm_num)⟩

/-- The buffer queues of the global trace state: `empty` is the LIFO stack of
empty buffers (trace.empty), `fullQ` the FIFO of full buffers
(trace.fullHead/fullTail). -/
structure TraceQueues where
  empty : List TraceBuf
  fullQ : List TraceBuf
deriving DecidableEq

/-- Go `traceFullQueue(buf)`: append buf at the tail of the full-buffer FIFO. -/
def traceFullQueue (q : TraceQueues) (b : TraceBuf) : TraceQueues :=
  { q with fullQ := q.fullQ ++ [b] }

/-- Go `traceFullDequeue()`: pop the head of the full-buffer FIFO
(0, i.e. `none`, when the queue is empty). -/
def traceFullDequeue (q : TraceQueues) : TraceQueues × Option TraceBuf :=
  match q.fullQ with
  | [] => (q, none)
  | b :: rest => ({ q with fullQ := rest }, some b)

/-- Go `traceFlush(buf, pid)`: queue buf onto the full queue (when non-nil),
obtain an empty buffer (popping trace.empty, else sysAlloc-ing a zeroed fresh
one), reset its pos, and initialize it for a new batch: adjust the tick so it
differs from the buffer's previous lastTicks, then write the Batch event
header byte and the two varints pid and ticks.  `ct` is the value of
`uint64(cputicks())` read inside the call. -/
def traceFlush (q : TraceQueues) (bufp : Option TraceBuf) (pid : Int)
    (ct : Nat) : TraceQueues × TraceBuf :=
  let q1 := match bufp with
    | some b => traceFullQueue q b
    | none => q
  let popped : TraceQueues × TraceBuf := match q1.empty with
    | b :: rest => ({ q1 with empty := rest }, b)
    | [] => (q1, ⟨0, []⟩)
  let q2 := popped.1
  let b0 := { popped.2 with data := ([] : List Nat) }
  let ticks0 := ct / traceTickDiv
  let ticks := if ticks0 = b0.lastTicks then (b0.lastTicks + 1) % 2 ^ 64
    else ticks0
  let b1 := { b0 with lastTicks := ticks }
  let b2 := ((b1.byte (traceEvBatch ||| 1 <<< traceArgCountShift)).varint
    (uint64OfInt pid)).varint ticks
  (q2, b2)

/-- C2: every buffer handed out by traceFlush starts with a Batch event: the
header byte is traceEvBatch (type 1) with arg-count 1, followed by the varint
of the processor id and the varint of the buffer's opening tick (which is the
buffer's lastTicks after the flush); the fresh buffer is non-empty, and the
old buffer (when non-nil) was enqueued at the tail of the full queue. -/
theorem traceFlush_batch_header (q : TraceQueues) (bufp : Option TraceBuf)
    (pid : Int) (ct : Nat) :
    (traceFlush q bufp pid ct).2.data
      = (traceEvBatch ||| 1 <<< traceArgCountShift)
          :: (traceAppend [] (uint64OfInt pid)
            ++ traceAppend [] ((traceFlush q bufp pid ct).2.lastTicks)) ∧
    0 < (traceFlush q bufp pid ct).2.pos ∧
    (traceFlush q bufp pid ct).1.fullQ = q.fullQ ++ bufp.toList ∧
    (traceEvBatch ||| 1 <<< traceArgCountShift) &&& 0x3F = traceEvBatch ∧
    (traceEvBatch ||| 1 <<< traceArgCountShift) >>> traceArgCountShift = 1 ∧
    (traceEvBatch ||| 1 <<< traceArgCountShift) < 256 := by
  have hdr : (traceEvBatch ||| 1 <<< traceArgCountShift) = 65 := by decide
  constructor
  · show (traceFlush q bufp pid ct).2.data = _
    unfold traceFlush
    simp only [TraceBuf.varint_eq, TraceBuf.byte, hdr]
    rw [traceAppend_append (uint64OfInt pid)]
    cases bufp <;> cases hq : q.empty <;>
      simp [traceFullQueue, List.append_assoc]
  · refine ⟨?_, ?_, by decide, by decide, by decide⟩
    · show 0 < (traceFlush q bufp pid ct).2.data.length
      unfold traceFlush
      simp only [TraceBuf.varint_eq, TraceBuf.byte]
      cases bufp <;> cases hq : q.empty <;> simp [traceFullQueue]
    · show (traceFlush q bufp pid ct).1.fullQ = q.fullQ ++ bufp.toList
      unfold traceFlush
      cases bufp <;> cases hq : q.empty <;>
        simp_all [traceFullQueue, Option.toList]

/-- Both traceEventLocked and traceString begin by making sure a current
buffer exists with `size` bytes of room, calling traceFlush otherwise
(`if buf == nil || len(buf.arr)-buf.pos < maxSize { buf = traceFlush(...) }`;
the same check appears inline at both call sites in the source). -/
def traceBufEnsure (q : TraceQueues) (bufp : Option TraceBuf) (pid : Int)
    (ct : Nat) (size : Nat) : TraceQueues × TraceBuf :=
  match bufp with
  | none => traceFlush q none pid ct
  | some b =>
    if traceBufCap - b.pos < size then traceFlush q (some b) pid ct
    else (q, b)

/-- The tick computation of traceEventLocked (lines 629-636): divide the raw
cputicks by traceTickDiv, take the uint64 difference from the buffer's
lastTicks, and when the difference is zero force tick = lastTicks + 1 and
diff = 1.  Returns (new tick cursor, tick delta to encode). -/
def traceEventTicks (lastTicks : Nat) (ctEv : Nat) : Nat × Nat :=
  let ticks0 := ctEv / traceTickDiv
  let tickDiff0 := (ticks0 + 2 ^ 64 - lastTicks) % 2 ^ 64
  if tickDiff0 = 0 then ((lastTicks + 1) % 2 ^ 64, 1) else (ticks0, tickDiff0)

/-- Go `traceEventLocked(extraBytes, mp, pid, bufp, ev, stackID, skip, args...)`.
The two cputicks reads (inside traceFlush and at line 631) are passed as
`ctFlush` and `ctEv`; the id that `traceStackID` (the external unwinder plus
the stack table) would return for the captured stack in the `skip > 0` case is
passed as `capturedID`.  Go `throw("invalid length of trace event")` is
`none`.  The `lenp` pointer of the source is non-nil exactly when narg is 3;
the deferred patch `*lenp = byte(evSize - 2)` is modelled by the conditional
`List.set` at the reserved byte's position `(buf2.varint 0).pos - 1`. -/
def traceEventLocked (extraBytes : Nat) (pid : Int) (q : TraceQueues)
    (bufp : Option TraceBuf) (ev : Nat) (stackID : Nat) (skip : Int)
    (args : List Nat) (ctFlush ctEv : Nat) (capturedID : Nat) :
    Option (TraceQueues × TraceBuf) :=
  let maxSize := 2 + 5 * traceBytesPerNumber + extraBytes
  let acq := traceBufEnsure q bufp pid ctFlush maxSize
  let tk := traceEventTicks acq.2.lastTicks ctEv
  let buf1 := { acq.2 with lastTicks := tk.1 }
  let narg0 := (args.length + (if stackID ≠ 0 ∨ 0 ≤ skip then 1 else 0)) % 256
  let narg := if narg0 > 3 then 3 else narg0
  let startPos := buf1.pos
  let buf2 := buf1.byte (ev ||| narg <<< traceArgCountShift)
  let buf3 := if narg = 3 then buf2.varint 0 else buf2
  let buf4 := buf3.varint tk.2
  let buf5 := args.foldl (fun b a => b.varint a) buf4
  let buf6 :=
    if stackID ≠ 0 then buf5.varint stackID
    else if skip = 0 then buf5.varint 0
    else if 0 < skip then buf5.varint capturedID
    else buf5
  let evSize := buf6.pos - startPos
  if evSize > maxSize then none
  else
    some (acq.1,
      if narg = 3 then
        { buf6 with
          data := buf6.data.set ((buf2.varint 0).pos - 1) ((evSize - 2) % 256) }
      else buf6)

/-- The bytes following the header byte (and the length byte, when present)
of an event written by traceEventLocked: the tick delta, the argument varints,
and the optional trailing stack argument. -/
def traceEventPayload (tickDiff : Nat) (args : List Nat) (stackID : Nat)
    (skip : Int) (capturedID : Nat) : List Nat :=
  traceAppend [] tickDiff
    ++ (args.map fun a => traceAppend [] a).flatten
    ++ (if stackID ≠ 0 then traceAppend [] stackID
        else if skip = 0 then traceAppend [] 0
        else if 0 < skip then traceAppend [] capturedID
        else [])

theorem traceAppend_nil_length_le64 (v : Nat) (hv : v < 2 ^ 64) :
    (traceAppend [] v).length ≤ 10 := by
  have hlt : v < 2 ^ (7 * 10) := by
    calc v < 2 ^ 64 := hv
    _ ≤ 2 ^ (7 * 10) := by norm_num
  exact traceAppend_nil_length_le 10 (by norm_num) v hlt

theorem foldl_varint_eq (args : List Nat) :
    ∀ b : TraceBuf, args.foldl (fun x a => x.varint a) b
      = ⟨b.lastTicks, b.data ++ (args.map fun a => traceAppend [] a).flatten⟩ := by
  induction args with
  | nil => intro b; simp
  | cons a as ih =>
    intro b
    rw [List.foldl_cons, ih, TraceBuf.varint_eq]
    simp

theorem join_map_enc_length_le (args : List Nat)
    (h : ∀ a ∈ args, a < 2 ^ 64) :
    ((args.map fun a => traceAppend [] a).flatten).length
      ≤ 10 * args.length := by
  induction args with
  | nil => simp
  | cons a as ih =>
    simp only [List.map_cons, List.flatten_cons, List.length_append,
      List.length_cons]
    have h1 := traceAppend_nil_length_le64 a (h a (by simp))
    have h2 := ih (fun x hx => h x (by simp [hx]))
    omega

theorem list_set_after (l1 : List Nat) (a b : Nat) (l2 : List Nat) (v : Nat) :
    (l1 ++ a :: b :: l2).set (l1.length + 1) v = l1 ++ a :: v :: l2 := by
  induction l1 with
  | nil => simp [List.set]
  | cons x xs ih =>
    simp only [List.cons_append, List.length_cons]
    have hstep : (x :: (xs ++ a :: b :: l2)).set (xs.length + 1 + 1) v
        = x :: ((xs ++ a :: b :: l2).set (xs.length + 1) v) := rfl
    rw [hstep, ih]

theorem traceEventTicks_snd_lt (lt ct : Nat) :
    (traceEventTicks lt ct).2 < 2 ^ 64 := by
  simp only [traceEventTicks]
  split_ifs with h
  · norm_num
  · exact Nat.mod_lt _ (by norm_num)

theorem traceEventTicks_mono (lt ct : Nat) (hle : lt ≤ ct / traceTickDiv)
    (hub : ct / traceTickDiv + 1 < 2 ^ 64) :
    lt < (traceEventTicks lt ct).1 ∧
      (ct / traceTickDiv = lt → (traceEventTicks lt ct).1 = lt + 1) := by
  simp only [traceEventTicks, traceTickDiv] at *
  split_ifs with h
  · constructor
    · simp only
      omega
    · intro _
      simp only
      omega
  · constructor
    · simp only
      omega
    · intro heq
      exfalso
      omega

/-- Characterization of traceEventLocked with at most three arguments (as at
every call site in the source): the call succeeds, writes the header byte, the
length byte when arg-count-3 framing is chosen, and the payload; the payload
is at most 50 bytes long. -/
theorem traceEventLocked_char (extraBytes : Nat) (pid : Int) (q : TraceQueues)
    (bufp : Option TraceBuf) (ev stackID : Nat) (skip : Int) (args : List Nat)
    (ctFlush ctEv capturedID : Nat)
    (hargs : args.length ≤ 3) (ha : ∀ a ∈ args, a < 2 ^ 64)
    (hsid : stackID < 2 ^ 64) (hcap : capturedID < 2 ^ 64)
    (A : TraceQueues × TraceBuf)
    (hA : A = traceBufEnsure q bufp pid ctFlush
      (2 + 5 * traceBytesPerNumber + extraBytes))
    (tk : Nat × Nat) (htk : tk = traceEventTicks A.2.lastTicks ctEv)
    (P : List Nat)
    (hP : P = traceEventPayload tk.2 args stackID skip capturedID)
    (n0 : Nat)
    (hn0 : n0 = args.length + (if stackID ≠ 0 ∨ 0 ≤ skip then 1 else 0)) :
    P.length ≤ 50 ∧
    traceEventLocked extraBytes pid q bufp ev stackID skip args ctFlush ctEv
        capturedID
      = some (A.1,
          ⟨tk.1, A.2.data
            ++ (if 3 ≤ n0
                then (ev ||| 3 <<< traceArgCountShift) % 256
                  :: P.length :: P
                else (ev ||| n0 <<< traceArgCountShift) % 256 :: P)⟩) := by
  have hstk : (if stackID ≠ 0 then traceAppend [] stackID
      else if skip = 0 then traceAppend [] 0
      else if 0 < skip then traceAppend [] capturedID
      else []).length ≤ 10 := by
    split_ifs with h1 h2 h3
    · exact traceAppend_nil_length_le64 stackID hsid
    · exact traceAppend_nil_length_le64 0 (by norm_num)
    · exact traceAppend_nil_length_le64 capturedID hcap
    · simp
  have hPlen : P.length ≤ 50 := by
    rw [hP]
    simp only [traceEventPayload, List.length_append]
    have h1 := traceAppend_nil_length_le64 _ (traceEventTicks_snd_lt
      A.2.lastTicks ctEv)
    have h2 := join_map_enc_length_le args ha
    rw [htk]
    omega
  refine ⟨hPlen, ?_⟩
  have hPdef : P = traceAppend [] tk.2
      ++ ((args.map fun a => traceAppend [] a).flatten
        ++ (if stackID ≠ 0 then traceAppend [] stackID
            else if skip = 0 then traceAppend [] 0
            else if 0 < skip then traceAppend [] capturedID
            else [])) := by
    rw [hP]
    simp [traceEventPayload]
  have hn256 : (args.length
      + (if stackID ≠ 0 ∨ 0 ≤ skip then 1 else 0)) % 256
      = n0 := by
    rw [hn0]
    exact Nat.mod_eq_of_lt (by split_ifs <;> omega)
  have henc0 : traceAppend [] 0 = [0] := by
    rw [traceAppend_eq_lt [] 0 (by norm_num)]
    rfl
  have hsb : ∀ b : TraceBuf,
      (if stackID ≠ 0 then b.varint stackID
       else if skip = 0 then b.varint 0
       else if 0 < skip then b.varint capturedID
       else b)
      = ⟨b.lastTicks, b.data
          ++ (if stackID ≠ 0 then traceAppend [] stackID
              else if skip = 0 then traceAppend [] 0
              else if 0 < skip then traceAppend [] capturedID
              else [])⟩ := by
    intro b
    split_ifs <;> simp [TraceBuf.varint_eq]
  have hB : traceBytesPerNumber = 10 := rfl
  simp only [traceEventLocked, ← hA, ← htk, hn256]
  set STK : List Nat := (if stackID ≠ 0 then traceAppend [] stackID
      else if skip = 0 then traceAppend [] 0
      else if 0 < skip then traceAppend [] capturedID
      else []) with hSTK
  by_cases h3 : 3 ≤ n0
  · have hng : (if n0 > 3 then 3 else n0) = 3 := by
      split_ifs <;> omega
    rw [hng]
    simp only [foldl_varint_eq]
    simp only [hsb]
    simp only [TraceBuf.byte, TraceBuf.varint_eq, TraceBuf.pos, henc0,
      eq_self_iff_true, if_true, List.append_assoc, List.cons_append,
      List.singleton_append, List.nil_append, List.length_append,
      List.length_cons, Nat.add_sub_cancel]
    rw [← hPdef, if_pos h3]
    have h1 : (traceAppend [] tk.2).length ≤ 10 := by
      rw [htk]
      exact traceAppend_nil_length_le64 _ (traceEventTicks_snd_lt _ _)
    have h2 := join_map_enc_length_le args ha
    have hPl : P.length = (traceAppend [] tk.2).length
        + ((List.map (fun a => traceAppend [] a) args).flatten.length
          + STK.length) := by
      rw [hPdef]
      simp [List.length_append]
    rw [if_neg (by omega)]
    have hidx : A.2.data.length + (([] : List Nat).length + 1 + 1) - 1
        = A.2.data.length + 1 := by simp
    rw [hidx, list_set_after]
    have hV : (A.2.data.length + ((traceAppend [] tk.2).length
        + ((List.map (fun a => traceAppend [] a) args).flatten.length
          + STK.length) + 1 + 1)
        - A.2.data.length - 2) % 256 = P.length := by
      omega
    rw [hV]
  · have hng : (if n0 > 3 then 3 else n0) = n0 := by
      split_ifs <;> omega
    rw [hng]
    have hne : ¬ (n0 = 3) := by omega
    simp only [if_neg hne]
    simp only [foldl_varint_eq]
    simp only [hsb]
    simp only [TraceBuf.byte, TraceBuf.varint_eq, TraceBuf.pos, henc0,
      eq_self_iff_true, if_true, List.append_assoc, List.cons_append,
      List.singleton_append, List.nil_append, List.length_append,
      List.length_cons, Nat.add_sub_cancel]
    rw [← hPdef, if_neg h3]
    have h1 : (traceAppend [] tk.2).length ≤ 10 := by
      rw [htk]
      exact traceAppend_nil_length_le64 _ (traceEventTicks_snd_lt _ _)
    have h2 := join_map_enc_length_le args ha
    rw [if_neg (by omega)]

/-- Whenever traceEventLocked returns (instead of aborting through
`throw("invalid length of trace event")`), the event's encoded size is at
most the declared maximum size. -/
theorem traceEventLocked_size_bound (extraBytes : Nat) (pid : Int)
    (q : TraceQueues) (bufp : Option TraceBuf) (ev stackID : Nat) (skip : Int)
    (args : List Nat) (ctFlush ctEv capturedID : Nat) (q' : TraceQueues)
    (b' : TraceBuf)
    (h : traceEventLocked extraBytes pid q bufp ev stackID skip args ctFlush
      ctEv capturedID = some (q', b')) :
    b'.pos - (traceBufEnsure q bufp pid ctFlush
      (2 + 5 * traceBytesPerNumber + extraBytes)).2.pos
      ≤ 2 + 5 * traceBytesPerNumber + extraBytes := by
  simp only [traceEventLocked] at h
  repeat' split at h
  all_goals try exact Option.noConfusion h
  all_goals simp only [Option.some.injEq, Prod.mk.injEq] at h
  all_goals obtain ⟨hq', hb'⟩ := h
  all_goals subst hb'
  all_goals simp only [TraceBuf.pos, List.length_set] at *
  all_goals omega

/-- C1: the emit path keeps ticks strictly monotonic.  For every call to
traceEventLocked (with the at-most-three arguments and uint64-bounded values
used at every call site), provided the divided cputicks value is at least the
buffer's previous lastTicks (the raw tick source is monotone) and does not
overflow uint64, the tick value written for the new event — the buffer's new
`lastTicks` — is strictly greater than the buffer's previous `lastTicks`, and
when the divided cputicks value equals `lastTicks` the emitter writes
`lastTicks + 1`; so within one buffer every event's tick exceeds the previous
event's tick. -/
theorem traceEventLocked_tick_monotone (extraBytes : Nat) (pid : Int)
    (q : TraceQueues) (bufp : Option TraceBuf) (ev stackID : Nat) (skip : Int)
    (args : List Nat) (ctFlush ctEv capturedID : Nat)
    (hargs : args.length ≤ 3) (ha : ∀ a ∈ args, a < 2 ^ 64)
    (hsid : stackID < 2 ^ 64) (hcap : capturedID < 2 ^ 64)
    (hle : (traceBufEnsure q bufp pid ctFlush
        (2 + 5 * traceBytesPerNumber + extraBytes)).2.lastTicks
        ≤ ctEv / traceTickDiv)
    (hub : ctEv / traceTickDiv + 1 < 2 ^ 64) :
    ∃ q' b', traceEventLocked extraBytes pid q bufp ev stackID skip args
        ctFlush ctEv capturedID = some (q', b') ∧
      (traceBufEnsure q bufp pid ctFlush
        (2 + 5 * traceBytesPerNumber + extraBytes)).2.lastTicks
        < b'.lastTicks ∧
      (ctEv / traceTickDiv = (traceBufEnsure q bufp pid ctFlush
          (2 + 5 * traceBytesPerNumber + extraBytes)).2.lastTicks →
        b'.lastTicks = (traceBufEnsure q bufp pid ctFlush
          (2 + 5 * traceBytesPerNumber + extraBytes)).2.lastTicks + 1) := by
  obtain ⟨hPlen, heq⟩ := traceEventLocked_char extraBytes pid q bufp ev
    stackID skip args ctFlush ctEv capturedID hargs ha hsid hcap _ rfl _ rfl
    _ rfl _ rfl
  exact ⟨_, _, heq, (traceEventTicks_mono _ _ hle hub).1,
    fun h => (traceEventTicks_mono _ _ hle hub).2 h⟩

/-- Witness for traceEventLocked_tick_monotone: an event written into a
buffer with lastTicks = 5 when cputicks/traceTickDiv is also 5 gets tick 6. -/
theorem traceEventLocked_tick_monotone_witness :
    (([] : List Nat).length ≤ 3 ∧ (∀ a ∈ ([] : List Nat), a < 2 ^ 64) ∧
      (0 : Nat) < 2 ^ 64 ∧ (0 : Nat) < 2 ^ 64 ∧
      (traceBufEnsure ⟨[], []⟩ (some ⟨5, []⟩) 0 0
        (2 + 5 * traceBytesPerNumber + 0)).2.lastTicks ≤ 320 / traceTickDiv ∧
      320 / traceTickDiv + 1 < 2 ^ 64) ∧
    (∃ q' b', traceEventLocked 0 0 ⟨[], []⟩ (some ⟨5, []⟩) 14 0 (-1) []
        0 320 0 = some (q', b') ∧
      (traceBufEnsure ⟨[], []⟩ (some ⟨5, []⟩) 0 0
        (2 + 5 * traceBytesPerNumber + 0)).2.lastTicks < b'.lastTicks ∧
      (320 / traceTickDiv = (traceBufEnsure ⟨[], []⟩ (some ⟨5, []⟩) 0 0
          (2 + 5 * traceBytesPerNumber + 0)).2.lastTicks →
        b'.lastTicks = (traceBufEnsure ⟨[], []⟩ (some ⟨5, []⟩) 0 0
          (2 + 5 * traceBytesPerNumber + 0)).2.lastTicks + 1)) :=
  ⟨⟨by decide, by decide, by decide, by decide, by decide, by decide⟩,
    traceEventLocked_tick_monotone 0 0 ⟨[], []⟩ (some ⟨5, []⟩) 14 0 (-1) []
      0 320 0 (by decide) (by decide) (by decide) (by decide) (by decide)
      (by decide)⟩

/-- C4: when traceEventLocked emits an event with arg-count-3 variable-length
framing (with the at-most-three arguments and uint64-bounded values used at
every call site), the reserved one-byte length field ends up holding the
event's encoded size minus the two framing bytes — the length of the payload
that follows the header byte and length byte — and that payload is less than
128 bytes; moreover, whenever a call returns at all (instead of aborting
fatally through throw on an event exceeding the declared maximum size), the
encoded size is within the declared maximum, for every argument list. -/
theorem traceEventLocked_length_framing (extraBytes : Nat) (pid : Int)
    (q : TraceQueues) (bufp : Option TraceBuf) (ev stackID : Nat) (skip : Int)
    (args : List Nat) (ctFlush ctEv capturedID : Nat)
    (hargs : args.length ≤ 3) (ha : ∀ a ∈ args, a < 2 ^ 64)
    (hsid : stackID < 2 ^ 64) (hcap : capturedID < 2 ^ 64) :
    (∃ q' b' tail,
      traceEventLocked extraBytes pid q bufp ev stackID skip args ctFlush
          ctEv capturedID = some (q', b') ∧
      tail.length < 128 ∧
      (3 ≤ args.length + (if stackID ≠ 0 ∨ 0 ≤ skip then 1 else 0) →
        b'.data = (traceBufEnsure q bufp pid ctFlush
            (2 + 5 * traceBytesPerNumber + extraBytes)).2.data
          ++ (ev ||| 3 <<< traceArgCountShift) % 256
            :: tail.length :: tail)) ∧
    (∀ (args2 : List Nat) (q' : TraceQueues) (b' : TraceBuf),
      traceEventLocked extraBytes pid q bufp ev stackID skip args2 ctFlush
          ctEv capturedID = some (q', b') →
      b'.pos - (traceBufEnsure q bufp pid ctFlush
        (2 + 5 * traceBytesPerNumber + extraBytes)).2.pos
        ≤ 2 + 5 * traceBytesPerNumber + extraBytes) := by
  obtain ⟨hPlen, heq⟩ := traceEventLocked_char extraBytes pid q bufp ev
    stackID skip args ctFlush ctEv capturedID hargs ha hsid hcap _ rfl _ rfl
    _ rfl _ rfl
  refine ⟨⟨_, _,
    traceEventPayload (traceEventTicks (traceBufEnsure q bufp pid ctFlush
      (2 + 5 * traceBytesPerNumber + extraBytes)).2.lastTicks ctEv).2 args
      stackID skip capturedID, heq, by omega, ?_⟩, ?_⟩
  · intro h3
    simp only [if_pos h3]
  · intro args2 q' b' h
    exact traceEventLocked_size_bound _ _ _ _ _ _ _ _ _ _ _ _ _ h

/-- Witness for traceEventLocked_length_framing: the event type 45 with two
arguments and an explicit stack id uses arg-count-3 framing. -/
theorem traceEventLocked_length_framing_witness :
    (([1, 2] : List Nat).length ≤ 3 ∧ (∀ a ∈ ([1, 2] : List Nat), a < 2 ^ 64)
      ∧ (9 : Nat) < 2 ^ 64 ∧ (0 : Nat) < 2 ^ 64) ∧
    ((∃ q' b' tail,
      traceEventLocked 0 0 ⟨[], []⟩ (some ⟨0, []⟩) 45 9 (-1) [1, 2] 0 64 0
        = some (q', b') ∧
      tail.length < 128 ∧
      (3 ≤ ([1, 2] : List Nat).length + (if (9 : Nat) ≠ 0 ∨ 0 ≤ (-1 : Int)
          then 1 else 0) →
        b'.data = (traceBufEnsure ⟨[], []⟩ (some ⟨0, []⟩) 0 0
            (2 + 5 * traceBytesPerNumber + 0)).2.data
          ++ (45 ||| 3 <<< traceArgCountShift) % 256
            :: tail.length :: tail)) ∧
    (∀ (args2 : List Nat) (q' : TraceQueues) (b' : TraceBuf),
      traceEventLocked 0 0 ⟨[], []⟩ (some ⟨0, []⟩) 45 9 (-1) args2 0 64 0
        = some (q', b') →
      b'.pos - (traceBufEnsure ⟨[], []⟩ (some ⟨0, []⟩) 0 0
        (2 + 5 * traceBytesPerNumber + 0)).2.pos
        ≤ 2 + 5 * traceBytesPerNumber + 0)) :=
  ⟨⟨by decide, by decide, by decide, by decide⟩,
    traceEventLocked_length_framing 0 0 ⟨[], []⟩ (some ⟨0, []⟩) 45 9 (-1)
      [1, 2] 0 64 0 (by decide) (by decide) (by decide) (by decide)⟩

/-- A record of the stack interning table (traceStack): its hash, assigned id,
PC count n and the PCs themselves (stk). -/
structure TraceStackRec where
  hash : Nat
  id : Nat
  n : Nat
  stk : List Nat
deriving DecidableEq

/-- The stack interning table (traceStackTable): the uint32 id sequencer and
the 2^13 hash-chained buckets, each a list with the most recently published
record at its head. -/
structure TraceStackTable where
  seq : Nat
  tab : Nat → List TraceStackRec

/-- The chain walk of traceStackTable.find: compare hash, then length, then
the PCs one by one; return the id on a match, 0 when the chain is
exhausted. -/
def traceStackChainFind (pcs : List Nat) (hash : Nat) :
    List TraceStackRec → Nat
  | [] => 0
  | stk :: rest =>
    if stk.hash = hash ∧ stk.n = pcs.length ∧ stk.stk = pcs then stk.id
    else traceStackChainFind pcs hash rest

/-- Go `traceStackTable.find(pcs, hash)`: walk the bucket selected by the
hash. -/
def TraceStackTable.find (tab : TraceStackTable) (pcs : List Nat)
    (hash : Nat) : Nat :=
  traceStackChainFind pcs hash (tab.tab (hash % 2 ^ 13))

/-- Go `traceStackTable.put(pcs)`: 0 for an empty sequence; otherwise look up
lock-free, then double-check under the mutex, and on a miss create a new
record with id `seq+1` (uint32) and publish it at the head of its bucket.
The external `memhash` is a parameter. -/
def TraceStackTable.put (tab : TraceStackTable) (memhash : List Nat → Nat)
    (pcs : List Nat) : TraceStackTable × Nat :=
  if pcs.length = 0 then (tab, 0)
  else
    let hash := memhash pcs
    let id1 := tab.find pcs hash
    if id1 ≠ 0 then (tab, id1)
    else
      let id2 := tab.find pcs hash
      if id2 ≠ 0 then (tab, id2)
      else
        let seq := (tab.seq + 1) % 2 ^ 32
        let stk : TraceStackRec :=
          { hash := hash, id := seq, n := pcs.length, stk := pcs }
        let part := hash % 2 ^ 13
        ({ seq := seq,
           tab := fun i => if i = part then stk :: tab.tab i else tab.tab i },
          stk.id)

/-- Well-formedness of the stack table: every published record carries an id
between 1 and the current value of the sequencer. -/
def stackTabWF (tab : TraceStackTable) : Prop :=
  ∀ i, ∀ r ∈ tab.tab i, 1 ≤ r.id ∧ r.id ≤ tab.seq

theorem traceStackChainFind_mem (pcs : List Nat) (hash : Nat) :
    ∀ chain : List TraceStackRec, traceStackChainFind pcs hash chain = 0 ∨
      ∃ r ∈ chain, r.id = traceStackChainFind pcs hash chain ∧
        r.stk = pcs ∧ r.hash = hash := by
  intro chain
  induction chain with
  | nil => exact Or.inl rfl
  | cons stk rest ih =>
    by_cases h : stk.hash = hash ∧ stk.n = pcs.length ∧ stk.stk = pcs
    · refine Or.inr ⟨stk, by simp, ?_, h.2.2, h.1⟩
      simp [traceStackChainFind, h]
    · rcases ih with h0 | ⟨r, hr, hid, hstk, hh⟩
      · refine Or.inl ?_
        simp only [traceStackChainFind, if_neg h]
        exact h0
      · refine Or.inr ⟨r, by simp [hr], ?_, hstk, hh⟩
        simp only [traceStackChainFind, if_neg h]
        exact hid

/-- C5: traceStackTable.put returns 0 for an empty PC sequence (and changes
nothing); for a non-empty sequence (over a well-formed table whose uint32
sequencer does not wrap) the returned id is nonzero and at most the
sequencer's value; put is idempotent — repeating a put returns the same id
and leaves the table unchanged; ids are dense and monotone: a put either
leaves the sequencer alone (lookup hit) or advances it by exactly one and
returns the fresh id seq+1; and well-formedness is preserved, so id 0 is
never held by a real record. -/
theorem traceStackTable_put_spec (tab : TraceStackTable)
    (memhash : List Nat → Nat) (pcs : List Nat)
    (hwf : stackTabWF tab) (hseq : tab.seq + 1 < 2 ^ 32) :
    (tab.put memhash []).2 = 0 ∧
    (tab.put memhash []).1 = tab ∧
    (pcs ≠ [] → 1 ≤ (tab.put memhash pcs).2 ∧
      (tab.put memhash pcs).2 ≤ (tab.put memhash pcs).1.seq) ∧
    ((tab.put memhash pcs).1.put memhash pcs
      = ((tab.put memhash pcs).1, (tab.put memhash pcs).2)) ∧
    ((tab.put memhash pcs).1.seq = tab.seq ∨
      ((tab.put memhash pcs).1.seq = tab.seq + 1 ∧
        (tab.put memhash pcs).2 = tab.seq + 1)) ∧
    stackTabWF (tab.put memhash pcs).1 := by
  have hput0 : tab.put memhash [] = (tab, 0) := by
    simp [TraceStackTable.put]
  by_cases hnil : pcs = []
  · subst hnil
    refine ⟨by rw [hput0], by rw [hput0], by simp, ?_, Or.inl (by rw [hput0]),
      ?_⟩
    · rw [hput0]
      simp [TraceStackTable.put]
    · rw [hput0]
      exact hwf
  · have hlen : ¬ (pcs.length = 0) := by
      simpa using hnil
    by_cases h1 : tab.find pcs (memhash pcs) = 0
    · -- lock-free miss and locked double-check miss: insert a fresh record
      have hmod : (tab.seq + 1) % 2 ^ 32 = tab.seq + 1 := Nat.mod_eq_of_lt hseq
      have hres : tab.put memhash pcs
          = ({ seq := (tab.seq + 1) % 2 ^ 32,
               tab := fun i => if i = memhash pcs % 2 ^ 13 then
                   ⟨memhash pcs, (tab.seq + 1) % 2 ^ 32, pcs.length, pcs⟩
                     :: tab.tab i
                 else tab.tab i },
             (tab.seq + 1) % 2 ^ 32) := by
        simp [TraceStackTable.put, hlen, h1]
      rw [hmod] at hres
      have hfind2 : TraceStackTable.find
          { seq := tab.seq + 1,
            tab := fun i => if i = memhash pcs % 2 ^ 13 then
                ⟨memhash pcs, tab.seq + 1, pcs.length, pcs⟩ :: tab.tab i
              else tab.tab i } pcs (memhash pcs) = tab.seq + 1 := by
        simp [TraceStackTable.find, traceStackChainFind]
      have hne1 : ¬ (tab.seq + 1 = 0) := by omega
      refine ⟨by rw [hput0], by rw [hput0], ?_, ?_, ?_, ?_⟩
      · intro _
        rw [hres]
        refine ⟨?_, ?_⟩
        · show 1 ≤ tab.seq + 1
          omega
        · show tab.seq + 1 ≤ tab.seq + 1
          omega
      · rw [hres]
        show TraceStackTable.put _ memhash pcs = _
        simp only [TraceStackTable.put, if_neg hlen]
        rw [hfind2]
        simp [hne1]
      · rw [hres]
        exact Or.inr ⟨rfl, rfl⟩
      · rw [hres]
        intro i r hr
        have hr' : r ∈ (if i = memhash pcs % 2 ^ 13 then
            (⟨memhash pcs, tab.seq + 1, pcs.length, pcs⟩ : TraceStackRec)
              :: tab.tab i
          else tab.tab i) := hr
        show 1 ≤ r.id ∧ r.id ≤ tab.seq + 1
        by_cases hi : i = memhash pcs % 2 ^ 13
        · rw [if_pos hi] at hr'
          rcases List.mem_cons.1 hr' with hre | hre
          · subst hre
            exact ⟨Nat.succ_le_succ (Nat.zero_le tab.seq), Nat.le_refl _⟩
          · have hb := hwf _ r hre
            exact ⟨hb.1, by omega⟩
        · rw [if_neg hi] at hr'
          have hb := hwf _ r hr'
          exact ⟨hb.1, by omega⟩
    · -- lock-free hit: the id of an existing record is returned
      have hres : tab.put memhash pcs = (tab, tab.find pcs (memhash pcs)) := by
        simp [TraceStackTable.put, hlen, h1]
      rcases traceStackChainFind_mem pcs (memhash pcs)
          (tab.tab (memhash pcs % 2 ^ 13)) with h0 | ⟨r, hr, hid, -, -⟩
      · exact absurd h0 h1
      · have hbounds := hwf _ r hr
        refine ⟨by rw [hput0], by rw [hput0], ?_, ?_, Or.inl (by rw [hres]),
          ?_⟩
        · intro _
          rw [hres]
          show 1 ≤ tab.find pcs (memhash pcs) ∧
            tab.find pcs (memhash pcs) ≤ tab.seq
          have hfe : tab.find pcs (memhash pcs)
              = traceStackChainFind pcs (memhash pcs)
                (tab.tab (memhash pcs % 2 ^ 13)) := rfl
          rw [hfe]
          omega
        · rw [hres]
          show TraceStackTable.put _ memhash pcs = _
          exact hres
        · rw [hres]
          exact hwf

/-- Witness for traceStackTable_put_spec: interning the two-PC stack [3, 4]
into an empty table (with list length as the stand-in hash function). -/
theorem traceStackTable_put_spec_witness :
    (stackTabWF ⟨0, fun _ => []⟩ ∧
      (⟨0, fun _ => []⟩ : TraceStackTable).seq + 1 < 2 ^ 32) ∧
    ((TraceStackTable.put ⟨0, fun _ => []⟩ (fun l => l.length) []).2 = 0 ∧
     (TraceStackTable.put ⟨0, fun _ => []⟩ (fun l => l.length) []).1
       = ⟨0, fun _ => []⟩ ∧
     (([3, 4] : List Nat) ≠ [] →
       1 ≤ (TraceStackTable.put ⟨0, fun _ => []⟩ (fun l => l.length)
         [3, 4]).2 ∧
       (TraceStackTable.put ⟨0, fun _ => []⟩ (fun l => l.length) [3, 4]).2
         ≤ (TraceStackTable.put ⟨0, fun _ => []⟩ (fun l => l.length)
           [3, 4]).1.seq) ∧
     (TraceStackTable.put
        (TraceStackTable.put ⟨0, fun _ => []⟩ (fun l => l.length) [3, 4]).1
        (fun l => l.length) [3, 4]
       = ((TraceStackTable.put ⟨0, fun _ => []⟩ (fun l => l.length)
           [3, 4]).1,
          (TraceStackTable.put ⟨0, fun _ => []⟩ (fun l => l.length)
           [3, 4]).2)) ∧
     ((TraceStackTable.put ⟨0, fun _ => []⟩ (fun l => l.length) [3, 4]).1.seq
         = (⟨0, fun _ => []⟩ : TraceStackTable).seq ∨
       ((TraceStackTable.put ⟨0, fun _ => []⟩ (fun l => l.length)
           [3, 4]).1.seq
         = (⟨0, fun _ => []⟩ : TraceStackTable).seq + 1 ∧
        (TraceStackTable.put ⟨0, fun _ => []⟩ (fun l => l.length) [3, 4]).2
         = (⟨0, fun _ => []⟩ : TraceStackTable).seq + 1)) ∧
     stackTabWF
       (TraceStackTable.put ⟨0, fun _ => []⟩ (fun l => l.length) [3, 4]).1) :=
  ⟨⟨fun i r hr => absurd hr (List.not_mem_nil r), by norm_num⟩,
    traceStackTable_put_spec ⟨0, fun _ => []⟩ (fun l => l.length) [3, 4]
      (fun i r hr => absurd hr (List.not_mem_nil r)) (by norm_num)⟩

/-- Per-goroutine tracing state used by traceGoSysExit: the goroutine id and
its traceseq causal counter (uint64). -/
structure GoroutineTraceState where
  goid : Nat
  traceseq : Nat
deriving DecidableEq

/-- Go `traceGoSysExit(ts int64)`: when the recorded syscall-exit tick is
nonzero and predates ticksStart, substitute 0; increment the goroutine's
traceseq; emit GoSysExit with arguments goid, traceseq and
`uint64(ts)/traceTickDiv`.  The emitted argument triple is returned together
with the updated goroutine state (gp.tracelastp and the traceEvent plumbing
carry no data relevant here). -/
def traceGoSysExit (ticksStart : Int) (gp : GoroutineTraceState) (ts : Int) :
    GoroutineTraceState × (Nat × Nat × Nat) :=
  let ts1 := if ts ≠ 0 ∧ ts < ticksStart then 0 else ts
  let gp1 := { gp with traceseq := (gp.traceseq + 1) % 2 ^ 64 }
  (gp1, (gp1.goid, gp1.traceseq, uint64OfInt ts1 / traceTickDiv))

/-- C7: for every call traceGoSysExit(ts) with ts strictly below ticks_start,
the substituted timestamp is 0, so the GoSysExit event's real-timestamp
argument equals 0 / tick_divisor = 0 — never a negative or wrapped-around
value. -/
theorem traceGoSysExit_clamped (ticksStart : Int) (gp : GoroutineTraceState)
    (ts : Int) (h : ts < ticksStart) :
    (traceGoSysExit ticksStart gp ts).2.2.2 = 0 := by
  simp only [traceGoSysExit]
  by_cases h0 : ts = 0
  · subst h0
    simp [uint64OfInt]
  · rw [if_pos ⟨h0, h⟩]
    simp [uint64OfInt]

/-- Witness for traceGoSysExit_clamped: a recorded exit tick of 5 against a
trace started at tick 10 yields timestamp argument 0. -/
theorem traceGoSysExit_clamped_witness :
    (5 : Int) < 10 ∧ (traceGoSysExit 10 ⟨7, 0⟩ 5).2.2.2 = 0 :=
  ⟨by norm_num, traceGoSysExit_clamped 10 ⟨7, 0⟩ 5 (by norm_num)⟩

/-- The clock-capture loop of StopTrace (lines 362-370): repeatedly read
cputicks then nanotime, exiting as soon as the captured wall time differs
from timeStart (osyield-ing between iterations).  `t i` and `n i` are the
values returned by the i-th reads of cputicks and nanotime; the loop is run
with explicit fuel, `none` meaning the fuel was exhausted before wall time
advanced. -/
def stopClockLoop (t n : Nat → Int) (timeStart : Int) :
    Nat → Nat → Option (Int × Int)
  | _, 0 => none
  | i, fuel + 1 =>
    let ticksEnd := t i
    let timeEnd := n i
    if timeEnd ≠ timeStart then some (ticksEnd, timeEnd)
    else stopClockLoop t n timeStart (i + 1) fuel

/-- C8: the StopTrace clock-capture loop re-reads ticks() and nanos() until
the captured wall time differs from the recorded start time; when it exits
with (ticksEnd, timeEnd), the wall time actually changed, and — given the
external clock contracts that nanotime never runs backwards past timeStart
and that cputicks reads after the start are strictly beyond ticksStart —
both ticksEnd > ticksStart and timeEnd > timeStart hold, even when nanos()
returns the same value several times in a row on a coarse clock. -/
theorem stopTrace_clock_advance (t n : Nat → Int) (ticksStart timeStart : Int)
    (i fuel : Nat) (ticksEnd timeEnd : Int)
    (hn : ∀ j, timeStart ≤ n j) (ht : ∀ j, ticksStart < t j)
    (hres : stopClockLoop t n timeStart i fuel = some (ticksEnd, timeEnd)) :
    timeEnd ≠ timeStart ∧ ticksStart < ticksEnd ∧ timeStart < timeEnd := by
  induction fuel generalizing i with
  | zero => exact absurd hres (by simp [stopClockLoop])
  | succ fuel ih =>
    rw [stopClockLoop] at hres
    by_cases h : n i ≠ timeStart
    · rw [if_pos h] at hres
      rw [Option.some.injEq, Prod.mk.injEq] at hres
      obtain ⟨h1, h2⟩ := hres
      subst h1
      subst h2
      refine ⟨h, ht i, ?_⟩
      have := hn i
      omega
    · rw [if_neg h] at hres
      exact ih (i + 1) hres

/-- Witness for stopTrace_clock_advance: a wall clock that is coarse for one
read and then advances. -/
theorem stopTrace_clock_advance_witness :
    ((∀ j, (50 : Int) ≤ (fun k => if k = 0 then (50 : Int) else 51) j) ∧
     (∀ j, (100 : Int) < (fun (_ : Nat) => (101 : Int)) j) ∧
     stopClockLoop (fun _ => (101 : Int))
       (fun k => if k = 0 then (50 : Int) else 51) 50 0 5
       = some (101, 51)) ∧
    ((51 : Int) ≠ 50 ∧ (100 : Int) < 101 ∧ (50 : Int) < 51) :=
  ⟨⟨fun j => by by_cases h : j = 0 <;> simp [h],
    fun j => by norm_num,
    by simp [stopClockLoop]⟩,
    stopTrace_clock_advance (fun _ => (101 : Int))
      (fun k => if k = 0 then (50 : Int) else 51) 100 50 0 5 101 51
      (fun j => by by_cases h : j = 0 <;> simp [h])
      (fun j => by norm_num)
      (by simp [stopClockLoop])⟩

/-- The portion of the global trace state that ReadTrace reads and writes:
the registered reader goroutine (0 = none), the buffer handed to the reader,
the buffer queues, the header/footer flags and the shutdown flag. -/
structure ReaderState where
  reader : Nat
  reading : Option TraceBuf
  queues : TraceQueues
  headerWritten : Bool
  footerWritten : Bool
  shutdown : Bool
deriving DecidableEq

/-- The possible outcomes of one entry into ReadTrace. -/
inductive ReadResult where
  | bytes (bs : List Nat)
  | nilPrinted (msg : String)
  | nilDone
  | parked
  | fatal (msg : String)
deriving DecidableEq

/-- The 16-byte fixed trace header, the bytes of
"go 1.19 trace" followed by three NULs. -/
def traceHeaderBytes : List Nat :=
  [103, 111, 32, 49, 46, 49, 57, 32, 116, 114, 97, 99, 101, 0, 0, 0]

/-- Go `ReadTrace()` called by goroutine `g`.  External pieces are passed as
parameters: `readCPU` is the state transformation performed by traceReadCPU
(draining the CPU-sample ring can enqueue buffers and intern stacks),
`dumpStacks` stands for trace.stackTab.dump(), `freq` is the float64
frequency value compared against 0 and `freqVal` its uint64 truncation (the
float64 arithmetic itself is outside this embedding).  Go returns are
modelled by ReadResult: returning a byte slice, println-then-nil, the clean
shutdown nil (after semrelease), parking on goparkunlock (the reader field
is set to g; the resumption re-enters), and throw. -/
def ReadTrace (st : ReaderState) (g : Nat)
    (readCPU : ReaderState → ReaderState) (freq : Int) (freqVal : Nat)
    (dumpStacks : ReaderState → ReaderState) : ReaderState × ReadResult :=
  if st.reader ≠ 0 then
    (st, .nilPrinted
      "runtime: ReadTrace called from multiple goroutines simultaneously")
  else
    let st1 := match st.reading with
      | some b =>
        { st with
          reading := none
          queues := { st.queues with empty := b :: st.queues.empty } }
      | none => st
    if !st1.headerWritten then
      ({ st1 with headerWritten := true }, .bytes traceHeaderBytes)
    else
      let st2 := if !st1.footerWritten && !st1.shutdown then readCPU st1
        else st1
      if st2.queues.fullQ = [] && !st2.shutdown then
        ({ st2 with reader := g }, .parked)
      else
        match traceFullDequeue st2.queues with
        | (q3, some b) =>
          ({ st2 with queues := q3, reading := some b }, .bytes b.data)
        | (_, none) =>
          if !st2.footerWritten then
            let st3 := { st2 with footerWritten := true }
            if freq ≤ 0 then
              (st3, .fatal "trace: ReadTrace got invalid frequency")
            else
              (dumpStacks st3,
                .bytes ((traceEvFrequency ||| 0 <<< traceArgCountShift)
                  :: traceAppend [] freqVal))
          else if st2.shutdown then (st2, .nilDone)
          else (st2, .nilPrinted "runtime: spurious wakeup of trace reader")

/-- C9: entering ReadTrace while another goroutine is already registered as
the trace reader is a non-fatal usage error: the diagnostic is printed, a
nil result is returned, and the entire trace state — reader registration,
queues, header/footer flags, shutdown — is left unchanged. -/
theorem readTrace_multiple_readers (st : ReaderState) (g : Nat)
    (readCPU : ReaderState → ReaderState) (freq : Int) (freqVal : Nat)
    (dumpStacks : ReaderState → ReaderState) (h : st.reader ≠ 0) :
    ReadTrace st g readCPU freq freqVal dumpStacks
      = (st, .nilPrinted
        "runtime: ReadTrace called from multiple goroutines simultaneously")
    := by
  simp only [ReadTrace, if_pos h]

/-- Witness for readTrace_multiple_readers: goroutine 3 enters while
goroutine 7 is registered as reader. -/
theorem readTrace_multiple_readers_witness :
    (⟨7, none, ⟨[], []⟩, false, false, false⟩ : ReaderState).reader ≠ 0 ∧
    ReadTrace ⟨7, none, ⟨[], []⟩, false, false, false⟩ 3 id 1 1 id
      = (⟨7, none, ⟨[], []⟩, false, false, false⟩, .nilPrinted
        "runtime: ReadTrace called from multiple goroutines simultaneously")
    :=
  ⟨by decide,
    readTrace_multiple_readers ⟨7, none, ⟨[], []⟩, false, false, false⟩ 3
      id 1 1 id (by decide)⟩

/-- The string interning table: the uint64 id sequencer and the string→id
map (an association list stands in for the Go map; only lookup and insert
are used). -/
structure StringTable where
  stringSeq : Nat
  strings : List (List Nat × Nat)
deriving DecidableEq

/-- The two-value map read `id, ok := trace.strings[s]`. -/
def stringsLookup (m : List (List Nat × Nat)) (s : List Nat) : Option Nat :=
  match m with
  | [] => none
  | (k, v) :: rest => if k = s then some v else stringsLookup rest s

/-- The buffer-writing half of traceString (lines 894-914): make sure the
buffer has room for the worst case `1 + 2*traceBytesPerNumber + len(s)`,
write the String event byte and the id varint, then re-check the remaining
room `len(buf.arr) - buf.pos` and truncate `slen` down to it when the string
plus a worst-case length varint no longer fit; Go's slicing `s[:slen]`
panics (`none`) when slen exceeds len(s); finally write the length varint
and copy, advancing pos by the number of bytes `copy` actually copied —
which is bounded by the space remaining in arr after the length varint. -/
def traceStringWrite (q : TraceQueues) (bufp : Option TraceBuf) (pid : Int)
    (ct : Nat) (id : Nat) (s : List Nat) : Option (TraceQueues × TraceBuf) :=
  let size := 1 + 2 * traceBytesPerNumber + s.length
  let acq := traceBufEnsure q bufp pid ct size
  let buf1 := (acq.2.byte traceEvString).varint id
  let room := traceBufCap - buf1.pos
  let slen := if room < s.length + traceBytesPerNumber then room
    else s.length
  if s.length < slen then none
  else
    let buf2 := buf1.varint slen
    let buf3 := { buf2 with
      data := buf2.data ++ (s.take slen).take (traceBufCap - buf2.pos) }
    some (acq.1, buf3)

/-- Go `traceString(bufp, pid, s)`: id 0 for the empty string; an interned
string returns its existing id without touching the buffer; otherwise the
Go `trace.stringSeq++; id := trace.stringSeq` assignment (uint64, written
inline below as `(st.stringSeq + 1) % 2 ^ 64`) names the fresh id, the map
is extended, and the String event is written through the buffer-writing
half.  `ct` is the cputicks value read by traceFlush should the buffer
rotate. -/
def traceString (st : StringTable) (q : TraceQueues) (bufp : Option TraceBuf)
    (pid : Int) (ct : Nat) (s : List Nat) :
    Option (StringTable × TraceQueues × Nat × Option TraceBuf) :=
  if s = [] then some (st, q, 0, bufp)
  else
    match stringsLookup st.strings s with
    | some id => some (st, q, id, bufp)
    | none =>
      match traceStringWrite q bufp pid ct ((st.stringSeq + 1) % 2 ^ 64) s
        with
      | none => none
      | some (q1, buf) =>
        some (⟨(st.stringSeq + 1) % 2 ^ 64,
            (s, (st.stringSeq + 1) % 2 ^ 64) :: st.strings⟩, q1,
          (st.stringSeq + 1) % 2 ^ 64, some buf)

theorem uint64OfInt_lt (i : Int) : uint64OfInt i < 2 ^ 64 := by
  unfold uint64OfInt
  have h1 : i % (2 ^ 64 : Int) < 2 ^ 64 :=
    Int.emod_lt_of_pos i (by norm_num)
  omega

theorem flushTicks_lt (lt ct : Nat) (hct : ct < 2 ^ 64) :
    (if ct / traceTickDiv = lt then (lt + 1) % 2 ^ 64
      else ct / traceTickDiv) < 2 ^ 64 := by
  split_ifs
  · exact Nat.mod_lt _ (by norm_num)
  · exact lt_of_le_of_lt (Nat.div_le_self ct traceTickDiv) hct

/-- A buffer freshly initialized by traceFlush holds only the Batch event:
at most the header byte and two worst-case varints. -/
theorem traceFlush_pos_le (q : TraceQueues) (bufp : Option TraceBuf)
    (pid : Int) (ct : Nat) (hct : ct < 2 ^ 64) :
    (traceFlush q bufp pid ct).2.pos ≤ 1 + 2 * traceBytesPerNumber := by
  have hpid := traceAppend_nil_length_le64 _ (uint64OfInt_lt pid)
  have ht0 : ∀ lt : Nat, (traceAppend [] (if ct / traceTickDiv = lt
      then (lt + 1) % 2 ^ 64 else ct / traceTickDiv)).length ≤ 10 :=
    fun lt => traceAppend_nil_length_le64 _ (flushTicks_lt lt ct hct)
  unfold traceFlush
  rcases bufp with _ | b <;> rcases hq : q.empty with _ | ⟨e, rest⟩ <;>
    simp only [traceFullQueue, hq, TraceBuf.varint_eq, TraceBuf.byte,
      TraceBuf.pos, List.length_append, List.length_cons, List.length_nil,
      List.nil_append] <;>
    first
      | (have h1 := ht0 0
         simp only [traceBytesPerNumber]
         omega)
      | (have h1 := ht0 e.lastTicks
         simp only [traceBytesPerNumber]
         omega)

/-- The buffer chosen by traceBufEnsure stays within capacity, and when its
remaining room is still below the requested size the buffer must have come
from traceFlush, so its position is at most the Batch event's size. -/
theorem traceBufEnsure_pos (q : TraceQueues) (bufp : Option TraceBuf)
    (pid : Int) (ct : Nat) (size : Nat) (hct : ct < 2 ^ 64)
    (hbuf : ∀ b, bufp = some b → b.pos ≤ traceBufCap) :
    (traceBufEnsure q bufp pid ct size).2.pos ≤ traceBufCap ∧
    (traceBufCap - (traceBufEnsure q bufp pid ct size).2.pos < size →
      (traceBufEnsure q bufp pid ct size).2.pos
        ≤ 1 + 2 * traceBytesPerNumber) := by
  rcases bufp with _ | b
  · have hf := traceFlush_pos_le q none pid ct hct
    simp only [traceBufEnsure]
    refine ⟨le_trans hf ?_, fun _ => hf⟩
    norm_num [traceBufCap, traceStackSize, traceBytesPerNumber]
  · by_cases hc : traceBufCap - b.pos < size
    · have hf := traceFlush_pos_le q (some b) pid ct hct
      simp only [traceBufEnsure, if_pos hc]
      refine ⟨le_trans hf ?_, fun _ => hf⟩
      norm_num [traceBufCap, traceStackSize, traceBytesPerNumber]
    · simp only [traceBufEnsure, if_neg hc]
      exact ⟨hbuf b rfl, fun hcon => absurd hcon hc⟩

/-- C10 (amended): bounds and truncation behaviour of traceString's buffer
write.  Let B1 be the buffer after the rotation check, the String event byte
and the id varint, and let room = traceBufCap - B1.pos.  (i) When
room ≥ len(s) + traceBytesPerNumber the full string is written and the
declared length varint equals len(s).  (ii) When room ≤ len(s) the event is
truncated: the declared length varint equals room — the remaining room
measured before the length varint — but the bytes actually copied are only
room minus the size of the length varint, exactly filling the buffer to
capacity; the declared length therefore exceeds the copied byte count.
(iii) When len(s) < room < len(s) + traceBytesPerNumber the Go slice
expression s[:slen] faults, since slen exceeds len(s).  (iv) In every
returning case the write stays within the buffer bounds. -/
theorem traceString_truncation_amended (q : TraceQueues)
    (bufp : Option TraceBuf) (pid : Int) (ct : Nat) (id : Nat) (s : List Nat)
    (hct : ct < 2 ^ 64) (hid : id < 2 ^ 64) (hs : s.length < 2 ^ 64)
    (hbuf : ∀ b, bufp = some b → b.pos ≤ traceBufCap)
    (E : TraceQueues × TraceBuf)
    (hE : E = traceBufEnsure q bufp pid ct
      (1 + 2 * traceBytesPerNumber + s.length))
    (B1 : TraceBuf) (hB1 : B1 = (E.2.byte traceEvString).varint id)
    (room : Nat) (hroom : room = traceBufCap - B1.pos) :
    (s.length + traceBytesPerNumber ≤ room →
      traceStringWrite q bufp pid ct id s
        = some (E.1, ⟨B1.lastTicks,
            B1.data ++ traceAppend [] s.length ++ s⟩)) ∧
    (room ≤ s.length →
      traceStringWrite q bufp pid ct id s
        = some (E.1, ⟨B1.lastTicks, B1.data ++ traceAppend [] room
            ++ s.take (room - (traceAppend [] room).length)⟩) ∧
      B1.pos + room = traceBufCap ∧
      room - (traceAppend [] room).length < room) ∧
    (s.length < room ∧ room < s.length + traceBytesPerNumber →
      traceStringWrite q bufp pid ct id s = none) ∧
    (∀ q' b', traceStringWrite q bufp pid ct id s = some (q', b') →
      b'.pos ≤ traceBufCap) := by
  have hB : traceBytesPerNumber = 10 := rfl
  have hcap : traceBufCap = 64488 := by
    norm_num [traceBufCap, traceStackSize]
  have hens := traceBufEnsure_pos q bufp pid ct
    (1 + 2 * traceBytesPerNumber + s.length) hct hbuf
  rw [← hE] at hens
  have hvid : (traceAppend [] id).length ≤ 10 :=
    traceAppend_nil_length_le64 id hid
  have hvs : (traceAppend [] s.length).length ≤ 10 :=
    traceAppend_nil_length_le64 _ hs
  have hB1pos : B1.pos = E.2.pos + (1 + (traceAppend [] id).length) := by
    rw [hB1]
    simp [TraceBuf.varint_eq, TraceBuf.byte, TraceBuf.pos]
    omega
  have hroomP : room = traceBufCap - B1.data.length := by
    rw [hroom]
    rfl
  have hposP : B1.pos = B1.data.length := rfl
  have hc1 : s.length + traceBytesPerNumber ≤ room →
      traceStringWrite q bufp pid ct id s
        = some (E.1, ⟨B1.lastTicks,
            B1.data ++ traceAppend [] s.length ++ s⟩) := by
    intro hfit
    have hslen : (if room < s.length + traceBytesPerNumber then room
        else s.length) = s.length := if_neg (by omega)
    simp only [traceStringWrite, ← hE, ← hB1, ← hroom, hslen]
    rw [if_neg (lt_irrefl s.length)]
    simp only [TraceBuf.varint_eq, List.take_length]
    have h1 : s.length ≤ traceBufCap
        - (B1.data ++ traceAppend [] s.length).length := by
      simp only [List.length_append]
      omega
    rw [show traceBufCap - (TraceBuf.mk B1.lastTicks
        (B1.data ++ traceAppend [] s.length)).pos
        = traceBufCap - (B1.data ++ traceAppend [] s.length).length from rfl]
    rw [List.take_of_length_le h1]
  have hc2 : room ≤ s.length →
      traceStringWrite q bufp pid ct id s
        = some (E.1, ⟨B1.lastTicks, B1.data ++ traceAppend [] room
            ++ s.take (room - (traceAppend [] room).length)⟩) ∧
      B1.pos + room = traceBufCap ∧
      room - (traceAppend [] room).length < room := by
    intro htr
    have hflush : E.2.pos ≤ 1 + 2 * traceBytesPerNumber := by
      apply hens.2
      omega
    have hroomge : 64456 ≤ room := by omega
    have hvr : (traceAppend [] room).length ≤ 10 :=
      traceAppend_nil_length_le64 room (by omega)
    have hvrpos : 1 ≤ (traceAppend [] room).length := by
      have := traceAppend_nil_ne_nil room
      cases hh : traceAppend [] room with
      | nil => exact absurd hh this
      | cons a t => simp [hh]
    have hslen : (if room < s.length + traceBytesPerNumber then room
        else s.length) = room := if_pos (by omega)
    refine ⟨?_, by omega, by omega⟩
    simp only [traceStringWrite, ← hE, ← hB1, ← hroom, hslen]
    rw [if_neg (by omega : ¬ s.length < room)]
    simp only [TraceBuf.varint_eq]
    rw [show traceBufCap - (TraceBuf.mk B1.lastTicks
        (B1.data ++ traceAppend [] room)).pos
        = room - (traceAppend [] room).length from by
      simp only [TraceBuf.pos, List.length_append]
      omega]
    rw [List.take_take]
    rw [min_eq_left (by omega)]
  have hc3 : s.length < room ∧ room < s.length + traceBytesPerNumber →
      traceStringWrite q bufp pid ct id s = none := by
    rintro ⟨h1, h2⟩
    have hslen : (if room < s.length + traceBytesPerNumber then room
        else s.length) = room := if_pos h2
    simp only [traceStringWrite, ← hE, ← hB1, ← hroom, hslen]
    rw [if_pos h1]
  refine ⟨hc1, hc2, hc3, ?_⟩
  intro q' b' hsome
  by_cases hA : s.length + traceBytesPerNumber ≤ room
  · rw [hc1 hA] at hsome
    simp only [Option.some.injEq, Prod.mk.injEq] at hsome
    obtain ⟨-, hb'⟩ := hsome
    subst hb'
    show (B1.data ++ traceAppend [] s.length ++ s).length ≤ traceBufCap
    simp only [List.length_append]
    omega
  · by_cases hB2 : room ≤ s.length
    · obtain ⟨heq, hpos, hlt⟩ := hc2 hB2
      rw [heq] at hsome
      simp only [Option.some.injEq, Prod.mk.injEq] at hsome
      obtain ⟨-, hb'⟩ := hsome
      subst hb'
      show (B1.data ++ traceAppend [] room
        ++ s.take (room - (traceAppend [] room).length)).length ≤ traceBufCap
      have hmin := List.length_take_le (room - (traceAppend [] room).length) s
      have hflush2 : E.2.pos ≤ 1 + 2 * traceBytesPerNumber :=
        hens.2 (by omega)
      have hvr2 : (traceAppend [] room).length ≤ 10 :=
        traceAppend_nil_length_le64 room (by omega)
      simp only [List.length_append]
      omega
    · rw [hc3 (by omega)] at hsome
      exact Option.noConfusion hsome

/-- Witness for traceString_truncation_amended: writing the two-byte string
[97, 98] with id 1 into an empty buffer. -/
theorem traceString_truncation_amended_witness :
    ((0 : Nat) < 2 ^ 64 ∧ (1 : Nat) < 2 ^ 64 ∧
      ([97, 98] : List Nat).length < 2 ^ 64 ∧
      (∀ b : TraceBuf, some (⟨0, []⟩ : TraceBuf) = some b →
        b.pos ≤ traceBufCap)) ∧
    (let E := traceBufEnsure ⟨[], []⟩ (some ⟨0, []⟩) 0 0
        (1 + 2 * traceBytesPerNumber + ([97, 98] : List Nat).length);
     let B1 := (E.2.byte traceEvString).varint 1;
     let room := traceBufCap - B1.pos;
     (([97, 98] : List Nat).length + traceBytesPerNumber ≤ room →
       traceStringWrite ⟨[], []⟩ (some ⟨0, []⟩) 0 0 1 [97, 98]
         = some (E.1, ⟨B1.lastTicks,
             B1.data ++ traceAppend [] ([97, 98] : List Nat).length
               ++ [97, 98]⟩)) ∧
     (room ≤ ([97, 98] : List Nat).length →
       traceStringWrite ⟨[], []⟩ (some ⟨0, []⟩) 0 0 1 [97, 98]
         = some (E.1, ⟨B1.lastTicks, B1.data ++ traceAppend [] room
             ++ ([97, 98] : List Nat).take
               (room - (traceAppend [] room).length)⟩) ∧
       B1.pos + room = traceBufCap ∧
       room - (traceAppend [] room).length < room) ∧
     (([97, 98] : List Nat).length < room ∧
         room < ([97, 98] : List Nat).length + traceBytesPerNumber →
       traceStringWrite ⟨[], []⟩ (some ⟨0, []⟩) 0 0 1 [97, 98] = none) ∧
     (∀ q' b', traceStringWrite ⟨[], []⟩ (some ⟨0, []⟩) 0 0 1 [97, 98]
         = some (q', b') →
       b'.pos ≤ traceBufCap)) :=
  ⟨⟨by decide, by decide, by decide, fun b hb => by cases hb; decide⟩,
    traceString_truncation_amended ⟨[], []⟩ (some ⟨0, []⟩) 0 0 1 [97, 98]
      (by decide) (by decide) (by decide) (fun b hb => by cases hb; decide)
      _ rfl _ rfl _ rfl⟩

theorem traceAppend_nil_one : traceAppend [] 1 = [1] := by
  rw [traceAppend_eq_lt [] 1 (by norm_num)]
  rfl

theorem traceAppend_nil_64483 : traceAppend [] 64483 = [227, 247, 3] := by
  rw [traceAppend_eq_ge [] 64483 (by norm_num)]
  rw [show ([] : List Nat) ++ [0x80 ||| 64483 % 256] = [227] from by decide]
  rw [show (64483 : Nat) >>> 7 = 503 from by decide]
  rw [traceAppend_eq_ge [227] 503 (by norm_num)]
  rw [show ([227] : List Nat) ++ [0x80 ||| 503 % 256] = [227, 247] from by
    decide]
  rw [show (503 : Nat) >>> 7 = 3 from by decide]
  rw [traceAppend_eq_lt [227, 247] 3 (by norm_num)]
  decide

theorem traceFlush_fresh_eval : traceFlush ⟨[], []⟩ none 0 0
    = (⟨[], []⟩, ⟨1, [65, 0, 1]⟩) := by
  have h0 : traceAppend [] 0 = [0] := by
    rw [traceAppend_eq_lt [] 0 (by norm_num)]
    rfl
  simp only [traceFlush, TraceBuf.varint_eq, TraceBuf.byte, uint64OfInt,
    traceTickDiv, traceEvBatch, traceArgCountShift, h0, traceAppend_nil_one]
  norm_num
  refine ⟨by decide, ?_⟩
  rw [h0, traceAppend_nil_one]
  rfl

theorem traceStringWrite_cex_eval :
    traceStringWrite ⟨[], []⟩ none 0 0 1 (List.replicate 64483 97)
      = some (⟨[], []⟩, ⟨1, [65, 0, 1, 37, 1] ++ [227, 247, 3]
          ++ List.replicate 64480 97⟩) := by
  have hens : traceBufEnsure ⟨[], []⟩ none 0 0
      (1 + 2 * traceBytesPerNumber + (List.replicate 64483 97).length)
      = (⟨[], []⟩, ⟨1, [65, 0, 1]⟩) := by
    simp only [traceBufEnsure]
    exact traceFlush_fresh_eval
  have hB1 : (((⟨1, [65, 0, 1]⟩ : TraceBuf).byte traceEvString).varint 1)
      = ⟨1, [65, 0, 1, 37, 1]⟩ := by
    rw [TraceBuf.varint_eq, traceAppend_nil_one]
    rfl
  simp only [traceStringWrite]
  rw [hens, hB1]
  rw [show traceBufCap - (⟨1, [65, 0, 1, 37, 1]⟩ : TraceBuf).pos = 64483
    from by norm_num [traceBufCap, traceStackSize, TraceBuf.pos]]
  simp only [List.length_replicate]
  rw [show (if (64483 : Nat) < 64483 + traceBytesPerNumber then (64483 : Nat)
      else 64483) = 64483 from by split_ifs <;> rfl]
  rw [if_neg (lt_irrefl 64483)]
  rw [TraceBuf.varint_eq, traceAppend_nil_64483]
  rw [show traceBufCap - (⟨1, [65, 0, 1, 37, 1] ++ [227, 247, 3]⟩
      : TraceBuf).pos = 64480
    from by norm_num [traceBufCap, traceStackSize, TraceBuf.pos]]
  rw [List.take_replicate, min_self]
  rw [List.take_replicate, min_eq_left (by norm_num)]

/-- C10 counterexample: for the 64483-byte string written through a fresh
buffer, the String event's declared length varint is [227, 247, 3], i.e.
64483 — the remaining room before the length varint — but only 64480 bytes
of the string are actually copied (the length varint itself consumed 3 bytes
of that room), so the declared length does NOT match the number of copied
bytes, refuting the claim at this input. -/
theorem traceString_declared_mismatch_cex :
    traceString ⟨0, []⟩ ⟨[], []⟩ none 0 0 (List.replicate 64483 97)
      = some (⟨1, [(List.replicate 64483 97, 1)]⟩, ⟨[], []⟩, 1,
          some ⟨1, [65, 0, 1, 37, 1] ++ [227, 247, 3]
            ++ List.replicate 64480 97⟩) ∧
    traceAppend [] 64483 = [227, 247, 3] ∧
    leb128Decode [227, 247, 3] = 64483 ∧
    (List.replicate (64480 : Nat) (97 : Nat)).length ≠ 64483 := by
  have hrep : ¬ (List.replicate 64483 (97 : Nat) = []) := by
    intro h
    have hlen := congrArg List.length h
    rw [List.length_replicate] at hlen
    simp only [List.length_nil] at hlen
    omega
  refine ⟨?_, traceAppend_nil_64483, by decide, ?_⟩
  case refine_2 =>
    rw [List.length_replicate]
    omega
  unfold traceString
  rw [if_neg hrep]
  rw [show stringsLookup ([] : List (List Nat × Nat))
    (List.replicate 64483 97) = none from rfl]
  rw [show (((⟨0, []⟩ : StringTable).stringSeq + 1)) % 2 ^ 64 = 1
    from by norm_num]
  rw [traceStringWrite_cex_eval]
